import Mathlib

/-!
Verification development for the polygon-sdk repository: the key-value storage
layer (`blockchain/storage/keyvalue.go`), the block header type
(`types/header.go`), and the IBFT consensus quantities described in the spec.

Go byte slices are modelled as `List Nat`, Go `uint64` as `Nat` with explicit
`% 2 ^ 64` reasoning where overflow matters, and the `KV` database as an
association list where `Set` prepends and `Get` returns the most recent entry
(last-set-wins).  Functions that can `panic` in Go return a result type with an
explicit `panicked` constructor.
-/

namespace PolygonSdk

/-- Go byte slices. -/
abbrev Bytes := List Nat

/-- The `KV` database (`keyvalue.go` interface `KV`): an association list,
newest entry first, so `Set` shadows older entries. -/
abbrev Store := List (Bytes × Bytes)

/-- `KV.Set`: store a value under a key (prepend, shadowing older entries). -/
def storeSet (db : Store) (k v : Bytes) : Store := (k, v) :: db

/-- `KV.Get`: return the most recently `Set` value for a key, if any. -/
def storeGet (db : Store) (k : Bytes) : Option Bytes :=
  match db with
  | [] => none
  | (k', v) :: rest => if k' = k then some v else storeGet rest k

-- Key prefixes from `keyvalue.go` (ASCII bytes of the Go literals).

/-- `DIFFICULTY = []byte("d")`. -/
def DIFFICULTY : Bytes := [0x64]

/-- `HEADER = []byte("h")`. -/
def HEADER : Bytes := [0x68]

/-- `HEAD = []byte("o")`. -/
def HEAD : Bytes := [0x6f]

/-- `FORK = []byte("f")`. -/
def FORK : Bytes := [0x66]

/-- `CANONICAL = []byte("c")`. -/
def CANONICAL : Bytes := [0x63]

/-- `RECEIPTS = []byte("r")`. -/
def RECEIPTS : Bytes := [0x72]

/-- `HASH = []byte("hash")`. -/
def HASHK : Bytes := [0x68, 0x61, 0x73, 0x68]

/-- `NUMBER = []byte("number")`. -/
def NUMBER : Bytes := [0x6e, 0x75, 0x6d, 0x62, 0x65, 0x72]

/-- `EMPTY = []byte("empty")`. -/
def EMPTY : Bytes := [0x65, 0x6d, 0x70, 0x74, 0x79]

/-- `CHAIN_INDEXER = []byte("chainIndexer")`. -/
def CHAIN_INDEXER : Bytes :=
  [0x63, 0x68, 0x61, 0x69, 0x6e, 0x49, 0x6e, 0x64, 0x65, 0x78, 0x65, 0x72]

/-- `CHAIN_INDEXER_HEAD = []byte("chainIndexerSectionsHead")`. -/
def CHAIN_INDEXER_HEAD : Bytes :=
  [0x63, 0x68, 0x61, 0x69, 0x6e, 0x49, 0x6e, 0x64, 0x65, 0x78, 0x65, 0x72,
   0x53, 0x65, 0x63, 0x74, 0x69, 0x6f, 0x6e, 0x73, 0x48, 0x65, 0x61, 0x64]

/-- `CHAIN_SECTIONS = []byte("sectionsValid")`. -/
def CHAIN_SECTIONS : Bytes :=
  [0x73, 0x65, 0x63, 0x74, 0x69, 0x6f, 0x6e, 0x73, 0x56, 0x61, 0x6c, 0x69, 0x64]

/-- `KeyValueStorage.encodeUint` (keyvalue.go:77): 8-byte big-endian encoding of
a `uint64`.  For `n < 2 ^ 64` the bytes are exactly the base-256 digits of `n`. -/
def encodeUint (n : Nat) : Bytes :=
  [n / 2 ^ 56 % 256, n / 2 ^ 48 % 256, n / 2 ^ 40 % 256, n / 2 ^ 32 % 256,
   n / 2 ^ 24 % 256, n / 2 ^ 16 % 256, n / 2 ^ 8 % 256, n % 256]

/-- `KeyValueStorage.decodeUint` (keyvalue.go:83): `binary.BigEndian.Uint64`
reads the first 8 bytes big-endian. -/
def decodeUint (b : Bytes) : Nat :=
  (b.take 8).foldl (fun acc x => acc * 256 + x) 0

/-- `KeyValueStorage.set` (keyvalue.go:374): `db.Set(prefix ++ key, value)`. -/
def kv_set (db : Store) (p k v : Bytes) : Store := storeSet db (p ++ k) v

/-- `KeyValueStorage.get` (keyvalue.go:379): `db.Get(prefix ++ key)`. -/
def kv_get (db : Store) (p k : Bytes) : Option Bytes := storeGet db (p ++ k)

/-- `ReadHeadNumber` (keyvalue.go:115): returns `(0, false)` when the entry is
absent or its length is not 8, else the decoded 8-byte big-endian number. -/
def readHeadNumber (db : Store) : Nat × Bool :=
  match kv_get db HEAD NUMBER with
  | none => (0, false)
  | some data => if data.length ≠ 8 then (0, false) else (decodeUint data, true)

/-- `WriteHeadNumber` (keyvalue.go:132): `set(HEAD, NUMBER, encodeUint n)`. -/
def writeHeadNumber (db : Store) (n : Nat) : Store := kv_set db HEAD NUMBER (encodeUint n)

/-- `types.BytesToHash`: right-align the (at most last 32) bytes in a 32-byte hash. -/
def bytesToHash (b : Bytes) : Bytes :=
  let b' := b.drop (b.length - 32)
  List.replicate (32 - b'.length) 0 ++ b'

/-- Result of a Go operation that can panic. -/
inductive OpResult (α : Type) where
  | ok (a : α)
  | panicked
deriving DecidableEq

/-- `binary.BigEndian.PutUint64(dst, n)`: writes 8 bytes into `dst`; panics
(index out of range) when `dst` is shorter than 8 bytes. -/
def putUint64 (dst : Bytes) (n : Nat) : Option Bytes :=
  if dst.length < 8 then none else some (encodeUint n ++ dst.drop 8)

/-- `ReadIndexSectionHead` (keyvalue.go:390): `PutUint64` into a nil slice,
then `get(CHAIN_INDEXER, sectionBinary)` and `BytesToHash`. -/
def readIndexSectionHead (db : Store) (sec : Nat) : OpResult Bytes :=
  match putUint64 [] sec with
  | none => .panicked
  | some sectionBinary => .ok (bytesToHash ((kv_get db CHAIN_INDEXER sectionBinary).getD []))

/-- `WriteIndexSectionHead` (keyvalue.go:399): `PutUint64` into a nil slice,
then `set(CHAIN_INDEXER_HEAD, sectionBinary, hash)`. -/
def writeIndexSectionHead (db : Store) (sec : Nat) (hash : Bytes) : OpResult Store :=
  match putUint64 [] sec with
  | none => .panicked
  | some sectionBinary => .ok (kv_set db CHAIN_INDEXER_HEAD sectionBinary hash)

/-- `WriteValidSectionsNum` (keyvalue.go:419): `PutUint64` into a nil slice,
then `set(CHAIN_INDEXER, CHAIN_SECTIONS, sectionsBinary)`. -/
def writeValidSectionsNum (db : Store) (sections : Nat) : OpResult Store :=
  match putUint64 [] sections with
  | none => .panicked
  | some sectionsBinary => .ok (kv_set db CHAIN_INDEXER CHAIN_SECTIONS sectionsBinary)

/-- `WriteBloomBits` (keyvalue.go:439): two `PutUint64` into nil slices, then
`set(CHAIN_INDEXER, bitNumBinary ++ currentSectionBinary ++ bHead, bits)`. -/
def writeBloomBits (db : Store) (bitNum currentSection : Nat) (bHead bits : Bytes) :
    OpResult Store :=
  match putUint64 [] bitNum with
  | none => .panicked
  | some bitNumBinary =>
    match putUint64 [] currentSection with
    | none => .panicked
    | some currentSectionBinary =>
      .ok (kv_set db CHAIN_INDEXER ((bitNumBinary ++ currentSectionBinary) ++ bHead) bits)

/-- `types.Header` (header.go:14), byte-array fields as `Bytes`, `uint64`
fields as `Nat`. -/
structure Header where
  parentHash : Bytes
  sha3Uncles : Bytes
  miner : Bytes
  stateRoot : Bytes
  txRoot : Bytes
  receiptsRoot : Bytes
  logsBloom : Bytes
  difficulty : Nat
  number : Nat
  gasLimit : Nat
  gasUsed : Nat
  timestamp : Nat
  extraData : Bytes
  mixHash : Bytes
  nonce : Bytes
  hash : Bytes
deriving DecidableEq

/-- `Header.Equal` (header.go:33): `h.Hash == hh.Hash`. -/
def Header.Equal (h hh : Header) : Bool := h.hash == hh.hash

/-- Minimal big-endian byte representation of a natural number, as produced by
`big.Int.Bytes` (empty for 0). -/
def natBytes : Nat → Bytes
  | 0 => []
  | n + 1 => natBytes ((n + 1) / 256) ++ [(n + 1) % 256]
decreasing_by exact Nat.div_lt_self (Nat.succ_pos n) (by omega)

/-- Big-endian interpretation of a byte string as a natural number. -/
def decodeBE (b : Bytes) : Nat := b.foldl (fun acc x => acc * 256 + x) 0

/-- RLP values as handled by the `fastrlp` library: byte strings and arrays. -/
inductive RlpValue where
  | bytes (bs : Bytes)
  | array (vs : List RlpValue)

/-- RLP encoding of a byte string. -/
def rlpEncodeBytes (bs : Bytes) : Bytes :=
  match bs with
  | [b] => if b < 0x80 then [b] else [0x81, b]
  | _ =>
    if bs.length ≤ 55 then (0x80 + bs.length) :: bs
    else (0xb7 + (natBytes bs.length).length) :: (natBytes bs.length ++ bs)

mutual

/-- RLP encoding of a value (`fastrlp.Value.MarshalTo`). -/
def rlpEncode : RlpValue → Bytes
  | .bytes bs => rlpEncodeBytes bs
  | .array vs =>
    let payload := rlpEncodeList vs
    if payload.length ≤ 55 then (0xc0 + payload.length) :: payload
    else (0xf7 + (natBytes payload.length).length) :: (natBytes payload.length ++ payload)

/-- Concatenated RLP encodings of a list of values. -/
def rlpEncodeList : List RlpValue → Bytes
  | [] => []
  | v :: vs => rlpEncode v ++ rlpEncodeList vs

end

mutual

/-- Decode one RLP value from the front of the input (fuel-bounded). -/
def rlpParseOne : Nat → Bytes → Option (RlpValue × Bytes)
  | 0, _ => none
  | _ + 1, [] => none
  | fuel + 1, b :: rest =>
    if b < 0x80 then some (.bytes [b], rest)
    else if b < 0xb8 then
      let len := b - 0x80
      if rest.length < len then none
      else some (.bytes (rest.take len), rest.drop len)
    else if b < 0xc0 then
      let ll := b - 0xb7
      if rest.length < ll then none
      else
        let len := decodeBE (rest.take ll)
        let rest2 := rest.drop ll
        if rest2.length < len then none
        else some (.bytes (rest2.take len), rest2.drop len)
    else if b < 0xf8 then
      let len := b - 0xc0
      if rest.length < len then none
      else
        match rlpParseMany fuel (rest.take len) with
        | none => none
        | some vs => some (.array vs, rest.drop len)
    else
      let ll := b - 0xf7
      if rest.length < ll then none
      else
        let len := decodeBE (rest.take ll)
        let rest2 := rest.drop ll
        if rest2.length < len then none
        else
          match rlpParseMany fuel (rest2.take len) with
          | none => none
          | some vs => some (.array vs, rest2.drop len)

/-- Decode a sequence of RLP values exhausting the input (fuel-bounded). -/
def rlpParseMany : Nat → Bytes → Option (List RlpValue)
  | _, [] => some []
  | 0, _ :: _ => none
  | fuel + 1, b :: rest =>
    match rlpParseOne fuel (b :: rest) with
    | none => none
    | some (v, rem) =>
      match rlpParseMany fuel rem with
      | none => none
      | some vs => some (v :: vs)

end

/-- `fastrlp.Parser.Parse`: decode one RLP value covering the whole input. -/
def rlpParse (bs : Bytes) : Option RlpValue :=
  match rlpParseOne (2 * bs.length + 2) bs with
  | some (v, []) => some v
  | _ => none

/-- `KeyValueStorage.read2` (keyvalue.go:354): absent entry or parse error
both yield nil. -/
def read2 (db : Store) (p k : Bytes) : Option RlpValue :=
  match kv_get db p k with
  | none => none
  | some data => rlpParse data

/-- `KeyValueStorage.write2` (keyvalue.go:367): marshal and `set`. -/
def write2 (db : Store) (p k : Bytes) (v : RlpValue) : Store :=
  kv_set db p k (rlpEncode v)

/-- `fastrlp.Value.GetElems`: succeeds only on an RLP array. -/
def getElems : RlpValue → Option (List RlpValue)
  | .array vs => some vs
  | .bytes _ => none

/-- `fastrlp.Value.GetHash`: succeeds only on a 32-byte RLP byte string. -/
def getHash : RlpValue → Option Bytes
  | .bytes bs => if bs.length = 32 then some bs else none
  | .array _ => none

/-- Result of a Go read that can signal not-found or panic. -/
inductive ReadResult (α : Type) where
  | ok (a : α)
  | notFound
  | panicked
deriving DecidableEq

/-- `ReadForks` (keyvalue.go:156): nil when the entry is absent or unparsable;
then `GetElems` and per-element `GetHash`, panicking (`panic(err)`) on error. -/
def readForks (db : Store) : ReadResult (List Bytes) :=
  match read2 db FORK EMPTY with
  | none => .ok []
  | some v =>
    match getElems v with
    | none => .panicked
    | some elems =>
      match elems.mapM getHash with
      | none => .panicked
      | some forks => .ok forks

/-- Modelled from the spec: `types.Header.UnmarshalRLPFrom` is not under
`src/`; per the spec the data-type layer is mechanical encode/decode work, so
it decodes the RLP array of the header's 15 non-hash fields and errors on any
other shape (the storage layer then panics on that error). -/
def headerUnmarshal (v : RlpValue) : Option Header :=
  match v with
  | .bytes _ => none
  | .array vs =>
    match vs with
    | [.bytes a, .bytes b, .bytes c, .bytes d, .bytes e, .bytes f, .bytes g,
       .bytes h, .bytes i, .bytes j, .bytes k, .bytes l, .bytes m, .bytes n,
       .bytes o] =>
      some { parentHash := a, sha3Uncles := b, miner := c, stateRoot := d,
             txRoot := e, receiptsRoot := f, logsBloom := g,
             difficulty := decodeBE h, number := decodeBE i,
             gasLimit := decodeBE j, gasUsed := decodeBE k,
             timestamp := decodeBE l, extraData := m, mixHash := n, nonce := o,
             hash := [] }
    | _ => none

/-- `ReadHeader` (keyvalue.go:204): not-found when the entry is absent or
unparsable; panics (`panic(err)`) when the RLP unmarshal fails. -/
def readHeader (db : Store) (hash : Bytes) : ReadResult Header :=
  match read2 db HEADER hash with
  | none => .notFound
  | some v =>
    match headerUnmarshal v with
    | none => .panicked
    | some h => .ok h

/-- Modelled from the spec: `types.Receipt.UnmarshalRLPFrom` is not under
`src/`; it decodes a receipt from an RLP array of its fields and errors on a
byte-string value (the model records the receipt's field count). -/
def receiptUnmarshal (v : RlpValue) : Option Nat :=
  match v with
  | .bytes _ => none
  | .array fields => some fields.length

/-- `ReadReceipts` (keyvalue.go:301): not-found when the entry is absent or
unparsable; panics (`panic(err)`) when `GetElems` or a receipt unmarshal
fails. -/
def readReceipts (db : Store) (hash : Bytes) : ReadResult (List Nat) :=
  match read2 db RECEIPTS hash with
  | none => .notFound
  | some v =>
    match getElems v with
    | none => .panicked
    | some elems =>
      match elems.mapM receiptUnmarshal with
      | none => .panicked
      | some rs => .ok rs

/-- Modelled from the spec: `types.Header.MarshalRLPWith` is not under `src/`;
the header is RLP-encoded as the array of its 15 non-hash fields. -/
def headerToRlp (h : Header) : RlpValue :=
  .array [.bytes h.parentHash, .bytes h.sha3Uncles, .bytes h.miner,
          .bytes h.stateRoot, .bytes h.txRoot, .bytes h.receiptsRoot,
          .bytes h.logsBloom, .bytes (natBytes h.difficulty),
          .bytes (natBytes h.number), .bytes (natBytes h.gasLimit),
          .bytes (natBytes h.gasUsed), .bytes (natBytes h.timestamp),
          .bytes h.extraData, .bytes h.mixHash, .bytes h.nonce]

/-- The value bytes written by `WriteHeader` (keyvalue.go:196). -/
def headerEncode (h : Header) : Bytes := rlpEncode (headerToRlp h)

/-- A fallible `KV.Set`: `failOn k = true` models the database returning an
error for key `k`; a failing `Set` leaves the store unchanged. -/
def kvSetF (failOn : Bytes → Bool) (db : Store) (k v : Bytes) : Bool × Store :=
  if failOn k then (false, db) else (true, storeSet db k v)

/-- `WriteCanonicalHeader` (keyvalue.go:220) over the fallible store: the five
`Set`s of `WriteHeader`, `WriteHeadHash`, `WriteHeadNumber`,
`WriteCanonicalHash` and `WriteDiff`, in order, returning at the first error. -/
def writeCanonicalHeader (failOn : Bytes → Bool) (db : Store) (h : Header) (diff : Nat) :
    Bool × Store :=
  let r1 := kvSetF failOn db (HEADER ++ h.hash) (headerEncode h)
  if r1.1 = false then (false, r1.2) else
  let r2 := kvSetF failOn r1.2 (HEAD ++ HASHK) h.hash
  if r2.1 = false then (false, r2.2) else
  let r3 := kvSetF failOn r2.2 (HEAD ++ NUMBER) (encodeUint h.number)
  if r3.1 = false then (false, r3.2) else
  let r4 := kvSetF failOn r3.2 (CANONICAL ++ encodeUint h.number) h.hash
  if r4.1 = false then (false, r4.2) else
  kvSetF failOn r4.2 (DIFFICULTY ++ h.hash) (natBytes diff)

/-- The five key/value pairs `WriteCanonicalHeader` writes, in program order. -/
def canonicalWrites (h : Header) (diff : Nat) : List (Bytes × Bytes) :=
  [(HEADER ++ h.hash, headerEncode h),
   (HEAD ++ HASHK, h.hash),
   (HEAD ++ NUMBER, encodeUint h.number),
   (CANONICAL ++ encodeUint h.number, h.hash),
   (DIFFICULTY ++ h.hash, natBytes diff)]

/-- Apply a list of writes to the store in order. -/
def applyWrites (db : Store) (ws : List (Bytes × Bytes)) : Store :=
  ws.foldl (fun acc kv => storeSet acc kv.1 kv.2) db

/-- A concrete header used as a test input. -/
def h0 : Header :=
  { parentHash := [], sha3Uncles := [], miner := [], stateRoot := [],
    txRoot := [], receiptsRoot := [], logsBloom := [], difficulty := 0,
    number := 1, gasLimit := 0, gasUsed := 0, timestamp := 0, extraData := [],
    mixHash := [], nonce := [], hash := [7] }

/-- Modelled from the spec: quorum size `Q = floor(2N/3) + 1` for a validator
set of size `N` (§3; the consensus core is not under `src/`). -/
def quorumSize (n : Nat) : Nat := 2 * n / 3 + 1

/-- Modelled from the spec: tolerated faulty count `F = floor((N-1)/3)` (§3). -/
def maxFaulty (n : Nat) : Nat := (n - 1) / 3

/-- A consensus view (spec §3): the block height under agreement plus the
retry round within that height. -/
structure View where
  sequence : Nat
  round : Nat
deriving DecidableEq

/-- Modelled from the spec: `ProposerAt(view, validatorSet)` is
`validatorSet[(view.Sequence + view.Round) mod len(validatorSet)]` (§4.1; the
consensus core is not under `src/`); an empty validator set is a fatal
misconfiguration, modelled as `none`. -/
def ProposerAt {α : Type} (v : View) (vs : List α) : Option α :=
  vs[(v.sequence + v.round) % vs.length]?

/-- Modelled from the spec: an abstract record of one sequence's Commit voting
(§4.3, §8; the consensus core is not under `src/`).  `vote v b` says validator
`v` issued a Commit for block hash `b`; `faulty` is the set of Byzantine
validators.  Message delay and loss only restrict which votes a node collects,
so they need no further structure here. -/
structure CommitVoting (n : Nat) (Hash : Type) where
  faulty : Finset (Fin n)
  vote : Fin n → Hash → Bool

/-- Modelled from the spec: a node finalizes hash `b` at a sequence only after
collecting a quorum (`Q = quorumSize n`) of Commit votes for `b`
(`HasQuorumCommits`, §4.3/§4.4). -/
def finalizes {n : Nat} {Hash : Type} (m : CommitVoting n Hash) (b : Hash) : Prop :=
  quorumSize n ≤ (Finset.univ.filter (fun v => m.vote v b)).card

/-- Protocol message types (spec §3). -/
inductive MsgType where
  | preprepare
  | prepare
  | commit
  | roundChange
deriving DecidableEq

/-- A verified protocol message as folded into the Round State (spec §3): the
signer layer has already authenticated `Sender`, so type, view, sender and
payload (the block hash, or the candidate block for Preprepare) remain. -/
structure Message where
  mtype : MsgType
  view : View
  sender : Nat
  payload : Nat
deriving DecidableEq

/-- Modelled from the spec: the Round State vote books (§3, §4.3; the consensus
core is not under `src/`): the accepted `Proposal` per view, and the
Prepare/Commit/RoundChange vote lists, deduplicated per sender and view. -/
structure RoundState where
  proposals : List (View × Nat)
  prepares : List Message
  commits : List Message
  roundChanges : List Message
deriving DecidableEq

/-- The empty Round State; also the result of the reset on finalize (§4.3). -/
def initialState : RoundState := ⟨[], [], [], []⟩

/-- Is a vote from this sender for this view already recorded? -/
def hasVote (l : List Message) (v : View) (s : Nat) : Bool :=
  l.any (fun m => m.view == v && m.sender == s)

/-- `Deduplicate` (spec §4.2), first-seen-wins: a later message from the same
sender for the same view and type is ignored and must not count twice. -/
def addVote (l : List Message) (m : Message) : List Message :=
  if hasVote l m.view m.sender then l else m :: l

/-- Does a view already carry an accepted proposal? -/
def hasProposal (l : List (View × Nat)) (v : View) : Bool :=
  l.any (fun p => p.1 == v)

/-- Modelled from the spec: fold one verified message into the Round State
(§4.2, §4.3): a Preprepare records the view's proposal (only the designated
proposer's Preprepare is accepted for a view, first seen wins) and each vote
list deduplicates per (sender, view). -/
def addMessage (st : RoundState) (m : Message) : RoundState :=
  match m.mtype with
  | .preprepare =>
    if hasProposal st.proposals m.view then st
    else { st with proposals := (m.view, m.payload) :: st.proposals }
  | .prepare => { st with prepares := addVote st.prepares m }
  | .commit => { st with commits := addVote st.commits m }
  | .roundChange => { st with roundChanges := addVote st.roundChanges m }

/-- `PrepareVotes[view]` (spec §3). -/
def prepareVotes (st : RoundState) (v : View) : List Message :=
  st.prepares.filter (fun m => m.view == v)

/-- `CommitVotes[view]` (spec §3). -/
def commitVotes (st : RoundState) (v : View) : List Message :=
  st.commits.filter (fun m => m.view == v)

/-- `RoundChangeVotes[view]` (spec §3). -/
def roundChangeVotes (st : RoundState) (v : View) : List Message :=
  st.roundChanges.filter (fun m => m.view == v)

/-- `HasQuorumPrepares(view)` (spec §4.3): `len(PrepareVotes[view]) ≥ Q` for a
validator set of size `n`. -/
def HasQuorumPrepares (st : RoundState) (v : View) (n : Nat) : Bool :=
  quorumSize n ≤ (prepareVotes st v).length

/-- `HasQuorumCommits(view)` (spec §4.3). -/
def HasQuorumCommits (st : RoundState) (v : View) (n : Nat) : Bool :=
  quorumSize n ≤ (commitVotes st v).length

/-- `HasQuorumRoundChange(view)` (spec §4.3). -/
def HasQuorumRoundChange (st : RoundState) (v : View) (n : Nat) : Bool :=
  quorumSize n ≤ (roundChangeVotes st v).length

/-- The proposal recorded for a view, if any. -/
def proposalFor (st : RoundState) (v : View) : Option Nat :=
  (st.proposals.find? (fun p => p.1 == v)).map (fun p => p.2)

/-- Modelled from the spec: `LockedProposal` holds the accepted proposal once
a Prepare quorum is reached for the view (§3, §4.4). -/
def LockedProposal (st : RoundState) (v : View) (n : Nat) : Option Nat :=
  if HasQuorumPrepares st v n then proposalFor st v else none

/-- Replay a list of received messages into a fresh Round State. -/
def foldMessages (msgs : List Message) : RoundState :=
  msgs.foldl addMessage initialState

/-- The deduplication key of a message: (type, view, sender); the sender slot
is zeroed for Preprepare because only the designated proposer's Preprepare is
accepted for a view. -/
def msgKey (m : Message) : MsgType × View × Nat :=
  match m.mtype with
  | .preprepare => (.preprepare, m.view, 0)
  | t => (t, m.view, m.sender)

/-- A vote book holds at most one message per (view, sender). -/
def votesDedup (l : List Message) : Prop :=
  (l.map (fun m => (m.view, m.sender))).Nodup

/-- The proposal book holds at most one proposal per view. -/
def proposalsDedup (l : List (View × Nat)) : Prop :=
  (l.map (fun p => p.1)).Nodup

/-- The C6 invariant: every book of the Round State is deduplicated. -/
def roundStateInv (st : RoundState) : Prop :=
  proposalsDedup st.proposals ∧ votesDedup st.prepares ∧
    votesDedup st.commits ∧ votesDedup st.roundChanges

end PolygonSdk

namespace PolygonSdk

/-- C8: the chain-indexer storage operations `ReadIndexSectionHead`,
`WriteIndexSectionHead`, `WriteValidSectionsNum` and `WriteBloomBits` panic on
every input, because each first executes `binary.BigEndian.PutUint64` into a
nil (zero-length) byte slice, before touching the database. -/
theorem chainIndexer_ops_always_panic :
    ∀ (db : Store) (a b : Nat) (h bits : Bytes),
      readIndexSectionHead db a = .panicked ∧
      writeIndexSectionHead db a h = .panicked ∧
      writeValidSectionsNum db a = .panicked ∧
      writeBloomBits db a b h bits = .panicked := by
  intro db a b h bits
  exact ⟨rfl, rfl, rfl, rfl⟩

/-- C9: with the store returning the value last `Set` for a key, reading the
head number after `WriteHeadNumber(n)` yields `(n, true)` for every
`n < 2 ^ 64`; and whenever the stored entry is absent or not exactly 8 bytes
long, `ReadHeadNumber` returns `(0, false)` without panicking. -/
theorem readHeadNumber_roundtrip_and_guard :
    ∀ (db : Store) (n : Nat),
      (n < 2 ^ 64 → readHeadNumber (writeHeadNumber db n) = (n, true)) ∧
      (storeGet db (HEAD ++ NUMBER) = none ∨
        (∃ v, storeGet db (HEAD ++ NUMBER) = some v ∧ v.length ≠ 8) →
        readHeadNumber db = (0, false)) := by
  intro db n
  constructor
  · intro hn
    have h1 : readHeadNumber (writeHeadNumber db n) = (decodeUint (encodeUint n), true) := by
      simp [readHeadNumber, writeHeadNumber, kv_get, kv_set, storeSet, storeGet, encodeUint]
    have h2 : decodeUint (encodeUint n) = n := by
      simp only [decodeUint, encodeUint, List.take, List.foldl]
      omega
    rw [h1, h2]
  · intro hcase
    rcases hcase with habs | ⟨v, hv, hlen⟩
    · simp only [readHeadNumber, kv_get, habs]
    · simp only [readHeadNumber, kv_get, hv, if_pos hlen]

/-- Witness for C9 at concrete inputs. -/
theorem readHeadNumber_roundtrip_and_guard_witness :
    readHeadNumber (writeHeadNumber [] 300) = (300, true) ∧
    readHeadNumber [(HEAD ++ NUMBER, [1, 2, 3])] = (0, false) :=
  ⟨(readHeadNumber_roundtrip_and_guard [] 300).1 (by decide),
   (readHeadNumber_roundtrip_and_guard [(HEAD ++ NUMBER, [1, 2, 3])] 0).2
     (Or.inr ⟨[1, 2, 3], by decide, by decide⟩)⟩

/-- C10: `Header.Equal` compares only the cached `Hash` field: it returns
`true` exactly when the two hashes coincide, whatever the other fields hold. -/
theorem header_Equal_iff_hash_eq :
    ∀ (h hh : Header), Header.Equal h hh = true ↔ h.hash = hh.hash := by
  intro h hh
  simp [Header.Equal]

/-- C1 counterexample: with the second `Set` (the head hash) failing and the
store initially empty, `WriteCanonicalHeader` returns an error yet the header
write persists: the store is changed on error, so the write is not atomic. -/
theorem writeCanonicalHeader_error_leaves_partial_write :
    (writeCanonicalHeader (fun k => k == HEAD ++ HASHK) [] h0 5).1 = false ∧
    (writeCanonicalHeader (fun k => k == HEAD ++ HASHK) [] h0 5).2 ≠ [] := by
  decide

/-- C1 amended: `WriteCanonicalHeader` is sequential, not atomic: it succeeds
iff none of its five `Set`s fails, and its final store applies exactly the
writes preceding the first failing `Set` (all five on success). -/
theorem writeCanonicalHeader_sequential_prefix :
    ∀ (failOn : Bytes → Bool) (db : Store) (h : Header) (d : Nat),
      (writeCanonicalHeader failOn db h d).1 =
        (canonicalWrites h d).all (fun kv => !failOn kv.1) ∧
      (writeCanonicalHeader failOn db h d).2 =
        applyWrites db ((canonicalWrites h d).takeWhile (fun kv => !failOn kv.1)) := by
  intro failOn db h d
  by_cases h1 : failOn (HEADER ++ h.hash) = true <;>
  by_cases h2 : failOn (HEAD ++ HASHK) = true <;>
  by_cases h3 : failOn (HEAD ++ NUMBER) = true <;>
  by_cases h4 : failOn (CANONICAL ++ encodeUint h.number) = true <;>
  by_cases h5 : failOn (DIFFICULTY ++ h.hash) = true <;>
  simp [writeCanonicalHeader, canonicalWrites, kvSetF, applyWrites,
    List.takeWhile, h1, h2, h3, h4, h5]

/-- C5: the storage layer panics on malformed persisted data: a stored RLP
byte-string (not an array) under the fork, header, or receipts key makes
`ReadForks`, `ReadHeader`, and `ReadReceipts` panic instead of returning an
error or a not-found result. -/
theorem read_malformed_data_panics :
    readForks [(FORK ++ EMPTY, [0x05])] = .panicked ∧
    readHeader [(HEADER ++ [7], [0x05])] [7] = .panicked ∧
    readReceipts [(RECEIPTS ++ [7], [0x05])] [7] = .panicked := by
  decide

/-- C3: for every validator-set size `N ≥ 1`, `Q + F ≤ N` and `Q > N - Q`, so
two disjoint quorums cannot both exist within `N` validators. -/
theorem quorum_arithmetic :
    ∀ n : Nat, 1 ≤ n → quorumSize n + maxFaulty n ≤ n ∧ n - quorumSize n < quorumSize n := by
  intro n h
  simp only [quorumSize, maxFaulty]
  omega

/-- Witness for C3 at `N = 4`. -/
theorem quorum_arithmetic_witness :
    1 ≤ 4 ∧ (quorumSize 4 + maxFaulty 4 ≤ 4 ∧ 4 - quorumSize 4 < quorumSize 4) :=
  ⟨by decide, quorum_arithmetic 4 (by decide)⟩

/-- C2: agreement safety: with at most `F` faulty validators, and honest
validators committing to at most one hash per sequence, any two blocks each
backed by a Commit quorum at the same sequence have the same hash — message
delay or loss only reduces the votes collected and cannot break this. -/
theorem consensus_agreement_safety :
    ∀ (n : Nat) (Hash : Type) (m : CommitVoting n Hash) (b1 b2 : Hash),
      m.faulty.card ≤ maxFaulty n →
      (∀ v, v ∉ m.faulty →
        ∀ h1 h2 : Hash, m.vote v h1 = true → m.vote v h2 = true → h1 = h2) →
      finalizes m b1 → finalizes m b2 → b1 = b2 := by
  intro n Hash m b1 b2 hf honest h1 h2
  by_contra hne
  simp only [finalizes] at h1 h2
  set A := Finset.univ.filter (fun v => m.vote v b1) with hA
  set B := Finset.univ.filter (fun v => m.vote v b2) with hB
  have hAB : A ∩ B ⊆ m.faulty := by
    intro v hv
    by_contra hvf
    rw [Finset.mem_inter, hA, hB] at hv
    simp only [Finset.mem_filter, Finset.mem_univ, true_and] at hv
    exact hne (honest v hvf b1 b2 hv.1 hv.2)
  have hinter : (A ∩ B).card ≤ m.faulty.card := Finset.card_le_card hAB
  have hunion : (A ∪ B).card ≤ n := by
    calc (A ∪ B).card ≤ (Finset.univ : Finset (Fin n)).card := Finset.card_le_univ _
    _ = n := by simp
  have hsum := Finset.card_inter_add_card_union A B
  simp only [quorumSize, maxFaulty] at h1 h2 hf
  omega

/-- Witness for C2: four validators, none faulty, everyone commits `true`. -/
theorem consensus_agreement_safety_witness :
    (({} : Finset (Fin 4)).card ≤ maxFaulty 4) ∧ (true = true) :=
  ⟨by decide,
   consensus_agreement_safety 4 Bool ⟨{}, fun _ b => b⟩ true true (by decide)
     (by intro v _ g1 g2 e1 e2; exact e1.trans e2.symm)
     (by unfold finalizes; decide) (by unfold finalizes; decide)⟩

/-- C4: `ProposerAt` follows the round-robin formula
`vs[(Sequence + Round) mod N]`, and for a fixed height the proposers over
rounds `0 .. N-1` are a permutation of the validator set: each validator is
proposer exactly once before the cycle repeats. -/
theorem proposerAt_formula_and_rotation :
    ∀ (α : Type) (vs : List α) (H : Nat), vs ≠ [] →
      (∀ r, ProposerAt ⟨H, r⟩ vs = vs[(H + r) % vs.length]?) ∧
      ((List.range vs.length).map (fun r => ProposerAt ⟨H, r⟩ vs)).Perm (vs.map some) := by
  intro α vs H hne
  have hlen : 0 < vs.length := List.length_pos.mpr hne
  refine ⟨fun r => rfl, ?_⟩
  have hmap : (List.range vs.length).map (fun r => ProposerAt ⟨H, r⟩ vs) =
      (vs.rotate H).map some := by
    apply List.ext_getElem
    · simp
    · intro i hi1 hi2
      simp only [List.getElem_map, List.getElem_range]
      have hrot := List.getElem_rotate vs H i (by simpa using hi2)
      rw [hrot]
      simp only [ProposerAt]
      rw [List.getElem?_eq_getElem (Nat.mod_lt _ hlen)]
      congr 1
      rw [Nat.add_comm]
  rw [hmap]
  exact (vs.rotate_perm H).map some

/-- Witness for C4: five validators, height 9. -/
theorem proposerAt_formula_and_rotation_witness :
    ((List.range ([10, 11, 12, 13, 14] : List Nat).length).map
      (fun r => ProposerAt ⟨9, r⟩ [10, 11, 12, 13, 14])).Perm
      ([10, 11, 12, 13, 14].map some) :=
  (proposerAt_formula_and_rotation Nat [10, 11, 12, 13, 14] 9 (by decide)).2

/-- `hasVote` decides membership of a (view, sender) key. -/
theorem hasVote_iff (l : List Message) (v : View) (s : Nat) :
    hasVote l v s = true ↔ ∃ m ∈ l, m.view = v ∧ m.sender = s := by
  simp [hasVote]

/-- `hasVote` over a cons. -/
theorem hasVote_cons (m : Message) (l : List Message) (v : View) (s : Nat) :
    hasVote (m :: l) v s = ((m.view == v && m.sender == s) || hasVote l v s) := by
  simp [hasVote]

/-- `hasProposal` decides membership of a view key. -/
theorem hasProposal_iff (l : List (View × Nat)) (v : View) :
    hasProposal l v = true ↔ ∃ p ∈ l, p.1 = v := by
  simp [hasProposal]

/-- `addVote` preserves per-(view, sender) deduplication. -/
theorem addVote_dedup (l : List Message) (m : Message) (h : votesDedup l) :
    votesDedup (addVote l m) := by
  unfold addVote
  split
  · exact h
  · rename_i hnot
    unfold votesDedup at *
    simp only [List.map_cons, List.nodup_cons]
    refine ⟨?_, h⟩
    intro hmem
    rw [List.mem_map] at hmem
    obtain ⟨m', hm', hkey⟩ := hmem
    have hhv : hasVote l m.view m.sender = true := by
      rw [hasVote_iff]
      refine ⟨m', hm', ?_, ?_⟩
      · exact congrArg Prod.fst hkey
      · exact congrArg Prod.snd hkey
    simp [hhv] at hnot

/-- `addMessage` preserves the deduplication invariant. -/
theorem addMessage_inv (st : RoundState) (m : Message) (h : roundStateInv st) :
    roundStateInv (addMessage st m) := by
  obtain ⟨hp, h1, h2, h3⟩ := h
  cases hm : m.mtype
  case preprepare =>
    simp only [addMessage, hm]
    split
    · exact ⟨hp, h1, h2, h3⟩
    · rename_i hnot
      refine ⟨?_, h1, h2, h3⟩
      unfold proposalsDedup at *
      simp only [List.map_cons, List.nodup_cons]
      refine ⟨?_, hp⟩
      intro hmem
      rw [List.mem_map] at hmem
      obtain ⟨p', hp', hkey⟩ := hmem
      have : hasProposal st.proposals m.view = true := by
        rw [hasProposal_iff]; exact ⟨p', hp', hkey⟩
      simp [this] at hnot
  case prepare =>
    simp only [addMessage, hm]
    exact ⟨hp, addVote_dedup _ _ h1, h2, h3⟩
  case commit =>
    simp only [addMessage, hm]
    exact ⟨hp, h1, addVote_dedup _ _ h2, h3⟩
  case roundChange =>
    simp only [addMessage, hm]
    exact ⟨hp, h1, h2, addVote_dedup _ _ h3⟩

/-- A vote whose (view, sender) key is already recorded is ignored. -/
theorem addVote_no_op (l : List Message) (m : Message)
    (h : hasVote l m.view m.sender = true) : addVote l m = l := by
  simp [addVote, h]

/-- A duplicate Prepare (same view and sender) is a no-op on the Round State. -/
theorem addMessage_duplicate_prepare (st : RoundState) (m m' : Message)
    (hm : m.mtype = .prepare) (hm' : m'.mtype = .prepare)
    (hv : m'.view = m.view) (hs : m'.sender = m.sender) :
    addMessage (addMessage st m) m' = addMessage st m := by
  have hhv : hasVote (addVote st.prepares m) m'.view m'.sender = true := by
    rw [hasVote_iff, hv, hs]
    unfold addVote
    split
    · rename_i htrue
      rw [hasVote_iff] at htrue
      exact htrue
    · exact ⟨m, List.mem_cons_self _ _, rfl, rfl⟩
  have ha := addVote_no_op (addVote st.prepares m) m' hhv
  simp only [addMessage, hm, hm', ha]

/-- C6: vote deduplication: the empty Round State is deduplicated, every
`addMessage` keeps at most one message per (sender, view) per book, and a
second Prepare from the same sender for the same view leaves
`len(PrepareVotes[view])` unchanged. -/
theorem roundState_dedup :
    roundStateInv initialState ∧
    (∀ st m, roundStateInv st → roundStateInv (addMessage st m)) ∧
    (∀ st (m m' : Message) (v : View), m.mtype = .prepare → m'.mtype = .prepare →
      m'.view = m.view → m'.sender = m.sender →
      (prepareVotes (addMessage (addMessage st m) m') v).length =
        (prepareVotes (addMessage st m) v).length) := by
  refine ⟨?_, addMessage_inv, ?_⟩
  · exact ⟨List.nodup_nil, List.nodup_nil, List.nodup_nil, List.nodup_nil⟩
  · intro st m m' v hm hm' hv hs
    rw [addMessage_duplicate_prepare st m m' hm hm' hv hs]

/-- Witness for C6: a duplicate Prepare vote at view (1, 0) from sender 5. -/
theorem roundState_dedup_witness :
    roundStateInv (addMessage initialState ⟨.prepare, ⟨1, 0⟩, 5, 9⟩) ∧
    (prepareVotes (addMessage (addMessage initialState ⟨.prepare, ⟨1, 0⟩, 5, 9⟩)
        ⟨.prepare, ⟨1, 0⟩, 5, 8⟩) ⟨1, 0⟩).length =
      (prepareVotes (addMessage initialState ⟨.prepare, ⟨1, 0⟩, 5, 9⟩) ⟨1, 0⟩).length :=
  ⟨roundState_dedup.2.1 initialState ⟨.prepare, ⟨1, 0⟩, 5, 9⟩ roundState_dedup.1,
   roundState_dedup.2.2 initialState ⟨.prepare, ⟨1, 0⟩, 5, 9⟩ ⟨.prepare, ⟨1, 0⟩, 5, 8⟩
     ⟨1, 0⟩ rfl rfl rfl rfl⟩

/-- `msgKey` of a non-Preprepare message is its (type, view, sender) triple. -/
theorem msgKey_of_ne_preprepare (m : Message) (hm : m.mtype ≠ MsgType.preprepare) :
    msgKey m = (m.mtype, m.view, m.sender) := by
  cases h : m.mtype
  · exact absurd h hm
  all_goals simp [msgKey, h]

/-- `hasProposal` over a cons. -/
theorem hasProposal_cons (p : View × Nat) (l : List (View × Nat)) (v : View) :
    hasProposal (p :: l) v = ((p.1 == v) || hasProposal l v) := by
  simp [hasProposal]

/-- How `addMessage` acts on the `prepares` book. -/
theorem addMessage_prepares (st : RoundState) (m : Message) :
    (addMessage st m).prepares =
      if m.mtype = MsgType.prepare then addVote st.prepares m else st.prepares := by
  cases hm : m.mtype
  case preprepare =>
    by_cases hc : hasProposal st.proposals m.view = true <;> simp [addMessage, hm, hc]
  all_goals simp [addMessage, hm]

/-- How `addMessage` acts on the `commits` book. -/
theorem addMessage_commits (st : RoundState) (m : Message) :
    (addMessage st m).commits =
      if m.mtype = MsgType.commit then addVote st.commits m else st.commits := by
  cases hm : m.mtype
  case preprepare =>
    by_cases hc : hasProposal st.proposals m.view = true <;> simp [addMessage, hm, hc]
  all_goals simp [addMessage, hm]

/-- How `addMessage` acts on the `roundChanges` book. -/
theorem addMessage_roundChanges (st : RoundState) (m : Message) :
    (addMessage st m).roundChanges =
      if m.mtype = MsgType.roundChange then addVote st.roundChanges m
      else st.roundChanges := by
  cases hm : m.mtype
  case preprepare =>
    by_cases hc : hasProposal st.proposals m.view = true <;> simp [addMessage, hm, hc]
  all_goals simp [addMessage, hm]

/-- How `addMessage` acts on the `proposals` book. -/
theorem addMessage_proposals (st : RoundState) (m : Message) :
    (addMessage st m).proposals =
      if m.mtype = MsgType.preprepare then
        (if hasProposal st.proposals m.view then st.proposals
         else (m.view, m.payload) :: st.proposals)
      else st.proposals := by
  cases hm : m.mtype
  case preprepare =>
    by_cases hc : hasProposal st.proposals m.view = true <;> simp [addMessage, hm, hc]
  all_goals simp [addMessage, hm]

/-- Folding key-distinct messages into any state whose book is disjoint from
them yields, up to permutation, the matching messages prepended to the book. -/
theorem foldl_votes_perm (proj : RoundState → List Message) (t : MsgType)
    (ht : t ≠ MsgType.preprepare)
    (hproj : ∀ st m, proj (addMessage st m) =
      if m.mtype = t then addVote (proj st) m else proj st) :
    ∀ (l : List Message) (st : RoundState),
      (l.map msgKey).Nodup →
      (∀ m ∈ l, m.mtype = t → hasVote (proj st) m.view m.sender = false) →
      (proj (l.foldl addMessage st)).Perm
        ((l.filter (fun m => m.mtype == t)) ++ proj st) := by
  intro l
  induction l with
  | nil => intro st _ _; simp
  | cons m rest ih =>
    intro st hnd hdisj
    rw [List.map_cons, List.nodup_cons] at hnd
    obtain ⟨hknotin, hndrest⟩ := hnd
    rw [List.foldl_cons]
    by_cases hm : m.mtype = t
    · have hmne : m.mtype ≠ MsgType.preprepare := by rw [hm]; exact ht
      have hfresh : hasVote (proj st) m.view m.sender = false :=
        hdisj m (List.mem_cons_self _ _) hm
      have hstep : proj (addMessage st m) = m :: proj st := by
        rw [hproj, if_pos hm]
        simp [addVote, hfresh]
      have hdisj' : ∀ m' ∈ rest, m'.mtype = t →
          hasVote (proj (addMessage st m)) m'.view m'.sender = false := by
        intro m' hmem' hm'
        have hm'ne : m'.mtype ≠ MsgType.preprepare := by rw [hm']; exact ht
        rw [hstep, hasVote_cons]
        have hone : hasVote (proj st) m'.view m'.sender = false :=
          hdisj m' (List.mem_cons_of_mem _ hmem') hm'
        rw [hone, Bool.or_false]
        have hkey : msgKey m ≠ msgKey m' := fun he =>
          hknotin (by rw [he]; exact List.mem_map_of_mem msgKey hmem')
        by_cases e1 : m.view = m'.view
        · by_cases e2 : m.sender = m'.sender
          · exfalso
            apply hkey
            rw [msgKey_of_ne_preprepare m hmne, msgKey_of_ne_preprepare m' hm'ne,
              hm, hm', e1, e2]
          · simp [e2]
        · simp [e1]
      have ihp := ih (addMessage st m) hndrest hdisj'
      rw [List.filter_cons_of_pos (by simp [hm])]
      refine ihp.trans ?_
      rw [hstep]
      exact List.perm_middle
    · have hstep : proj (addMessage st m) = proj st := by
        rw [hproj, if_neg hm]
      have hdisj' : ∀ m' ∈ rest, m'.mtype = t →
          hasVote (proj (addMessage st m)) m'.view m'.sender = false := by
        intro m' hmem' hm'
        rw [hstep]
        exact hdisj m' (List.mem_cons_of_mem _ hmem') hm'
      have ihp := ih (addMessage st m) hndrest hdisj'
      rw [List.filter_cons_of_neg (by simp [hm])]
      refine ihp.trans ?_
      rw [hstep]

/-- Folding key-distinct messages collects, up to permutation, one proposal
per Preprepare view. -/
theorem foldl_proposals_perm :
    ∀ (l : List Message) (st : RoundState),
      (l.map msgKey).Nodup →
      (∀ m ∈ l, m.mtype = MsgType.preprepare → hasProposal st.proposals m.view = false) →
      ((l.foldl addMessage st).proposals).Perm
        (((l.filter (fun m => m.mtype == MsgType.preprepare)).map
            (fun m => (m.view, m.payload))) ++ st.proposals) := by
  intro l
  induction l with
  | nil => intro st _ _; simp
  | cons m rest ih =>
    intro st hnd hdisj
    rw [List.map_cons, List.nodup_cons] at hnd
    obtain ⟨hknotin, hndrest⟩ := hnd
    rw [List.foldl_cons]
    by_cases hm : m.mtype = MsgType.preprepare
    · have hfresh : hasProposal st.proposals m.view = false :=
        hdisj m (List.mem_cons_self _ _) hm
      have hstep : (addMessage st m).proposals = (m.view, m.payload) :: st.proposals := by
        rw [addMessage_proposals, if_pos hm, hfresh]
        simp
      have hdisj' : ∀ m' ∈ rest, m'.mtype = MsgType.preprepare →
          hasProposal (addMessage st m).proposals m'.view = false := by
        intro m' hmem' hm'
        rw [hstep, hasProposal_cons]
        have hone : hasProposal st.proposals m'.view = false :=
          hdisj m' (List.mem_cons_of_mem _ hmem') hm'
        rw [hone, Bool.or_false]
        have hkey : msgKey m ≠ msgKey m' := fun he =>
          hknotin (by rw [he]; exact List.mem_map_of_mem msgKey hmem')
        have hne : ¬(m.view = m'.view) := by
          intro e
          apply hkey
          simp [msgKey, hm, hm', e]
        simp [hne]
      have ihp := ih (addMessage st m) hndrest hdisj'
      rw [List.filter_cons_of_pos (by simp [hm]), List.map_cons]
      refine ihp.trans ?_
      rw [hstep]
      exact List.perm_middle
    · have hstep : (addMessage st m).proposals = st.proposals := by
        rw [addMessage_proposals, if_neg hm]
      have hdisj' : ∀ m' ∈ rest, m'.mtype = MsgType.preprepare →
          hasProposal (addMessage st m).proposals m'.view = false := by
        intro m' hmem' hm'
        rw [hstep]
        exact hdisj m' (List.mem_cons_of_mem _ hmem') hm'
      have ihp := ih (addMessage st m) hndrest hdisj'
      rw [List.filter_cons_of_neg (by simp [hm])]
      refine ihp.trans ?_
      rw [hstep]

/-- The `prepares` book of a replay is the Prepare messages, up to order. -/
theorem foldMessages_prepares (l : List Message) (hnd : (l.map msgKey).Nodup) :
    (foldMessages l).prepares.Perm (l.filter (fun m => m.mtype == MsgType.prepare)) := by
  have h := foldl_votes_perm (fun st => st.prepares) MsgType.prepare (by decide)
    (fun st m => addMessage_prepares st m) l initialState hnd (fun m _ _ => rfl)
  simpa [foldMessages, initialState] using h

/-- The `commits` book of a replay is the Commit messages, up to order. -/
theorem foldMessages_commits (l : List Message) (hnd : (l.map msgKey).Nodup) :
    (foldMessages l).commits.Perm (l.filter (fun m => m.mtype == MsgType.commit)) := by
  have h := foldl_votes_perm (fun st => st.commits) MsgType.commit (by decide)
    (fun st m => addMessage_commits st m) l initialState hnd (fun m _ _ => rfl)
  simpa [foldMessages, initialState] using h

/-- The `roundChanges` book of a replay is the RoundChange messages, up to order. -/
theorem foldMessages_roundChanges (l : List Message) (hnd : (l.map msgKey).Nodup) :
    (foldMessages l).roundChanges.Perm
      (l.filter (fun m => m.mtype == MsgType.roundChange)) := by
  have h := foldl_votes_perm (fun st => st.roundChanges) MsgType.roundChange (by decide)
    (fun st m => addMessage_roundChanges st m) l initialState hnd (fun m _ _ => rfl)
  simpa [foldMessages, initialState] using h

/-- The `proposals` book of a replay is one entry per Preprepare, up to order. -/
theorem foldMessages_proposals (l : List Message) (hnd : (l.map msgKey).Nodup) :
    (foldMessages l).proposals.Perm
      ((l.filter (fun m => m.mtype == MsgType.preprepare)).map
        (fun m => (m.view, m.payload))) := by
  have h := foldl_proposals_perm l initialState hnd (fun m _ _ => rfl)
  simpa [foldMessages, initialState] using h

/-- A replay from the empty state satisfies the deduplication invariant. -/
theorem foldMessages_inv (l : List Message) : roundStateInv (foldMessages l) := by
  unfold foldMessages
  have h : ∀ (rest : List Message) (st : RoundState), roundStateInv st →
      roundStateInv (rest.foldl addMessage st) := by
    intro rest
    induction rest with
    | nil => intro st hst; exact hst
    | cons m r ih => intro st hst; exact ih _ (addMessage_inv st m hst)
  exact h l initialState ⟨List.nodup_nil, List.nodup_nil, List.nodup_nil, List.nodup_nil⟩

/-- `find?` on a key-deduplicated association list is permutation-invariant. -/
theorem find?_key_eq_of_perm (p1 p2 : List (View × Nat)) (hperm : p1.Perm p2)
    (h1 : proposalsDedup p1) (v : View) :
    p1.find? (fun q => q.1 == v) = p2.find? (fun q => q.1 == v) := by
  unfold proposalsDedup at h1
  cases hf : p1.find? (fun q => q.1 == v) with
  | none =>
    rw [List.find?_eq_none] at hf
    symm
    rw [List.find?_eq_none]
    intro x hx
    exact hf x (hperm.symm.subset hx)
  | some q =>
    have hq1 := List.find?_some hf
    have hqmem : q ∈ p1 := List.mem_of_find?_eq_some hf
    cases hf2 : p2.find? (fun q => q.1 == v) with
    | none =>
      rw [List.find?_eq_none] at hf2
      exact absurd hq1 (hf2 q (hperm.subset hqmem))
    | some q' =>
      have hq'1 := List.find?_some hf2
      have hq'mem : q' ∈ p1 := hperm.symm.subset (List.mem_of_find?_eq_some hf2)
      have heq : q = q' := by
        apply List.inj_on_of_nodup_map h1 hqmem hq'mem
        simp only [beq_iff_eq] at hq1 hq'1
        rw [hq1, hq'1]
      rw [heq]

/-- C7 counterexample: replay determinism fails for arbitrary message sets:
an equivocating set with two Preprepares for the same view, replayed in two
orders (a permutation of the same set), yields different `LockedProposal`
values, refuting the claim as stated for every finite set. -/
theorem roundState_replay_order_dependent :
    ([⟨.preprepare, ⟨1, 0⟩, 1, 100⟩, ⟨.preprepare, ⟨1, 0⟩, 2, 200⟩,
      ⟨.prepare, ⟨1, 0⟩, 3, 100⟩] : List Message).Perm
      [⟨.preprepare, ⟨1, 0⟩, 2, 200⟩, ⟨.preprepare, ⟨1, 0⟩, 1, 100⟩,
       ⟨.prepare, ⟨1, 0⟩, 3, 100⟩] ∧
    LockedProposal
        (foldMessages [⟨.preprepare, ⟨1, 0⟩, 1, 100⟩, ⟨.preprepare, ⟨1, 0⟩, 2, 200⟩,
          ⟨.prepare, ⟨1, 0⟩, 3, 100⟩]) ⟨1, 0⟩ 1 ≠
      LockedProposal
        (foldMessages [⟨.preprepare, ⟨1, 0⟩, 2, 200⟩, ⟨.preprepare, ⟨1, 0⟩, 1, 100⟩,
          ⟨.prepare, ⟨1, 0⟩, 3, 100⟩]) ⟨1, 0⟩ 1 := by
  exact ⟨by decide, by decide⟩

/-- C7 amended: replay determinism holds for message sets that carry at most
one message per sender per (view, type) — with one accepted Preprepare per
view — as the protocol's validation and deduplication expect (§4.2): folding
such a set into a fresh Round State in any two orders yields identical
`HasQuorumPrepares`, `HasQuorumCommits`, `HasQuorumRoundChange` and an
identical `LockedProposal`. -/
theorem roundState_replay_deterministic :
    ∀ (l1 l2 : List Message), l1.Perm l2 → (l1.map msgKey).Nodup →
      ∀ (v : View) (n : Nat),
        HasQuorumPrepares (foldMessages l1) v n = HasQuorumPrepares (foldMessages l2) v n ∧
        HasQuorumCommits (foldMessages l1) v n = HasQuorumCommits (foldMessages l2) v n ∧
        HasQuorumRoundChange (foldMessages l1) v n =
          HasQuorumRoundChange (foldMessages l2) v n ∧
        LockedProposal (foldMessages l1) v n = LockedProposal (foldMessages l2) v n := by
  intro l1 l2 hperm hnd v n
  have hnd2 : (l2.map msgKey).Nodup := ((hperm.map msgKey).nodup_iff).mp hnd
  have hprep : (foldMessages l1).prepares.Perm (foldMessages l2).prepares :=
    (foldMessages_prepares l1 hnd).trans
      ((hperm.filter _).trans (foldMessages_prepares l2 hnd2).symm)
  have hcom : (foldMessages l1).commits.Perm (foldMessages l2).commits :=
    (foldMessages_commits l1 hnd).trans
      ((hperm.filter _).trans (foldMessages_commits l2 hnd2).symm)
  have hrc : (foldMessages l1).roundChanges.Perm (foldMessages l2).roundChanges :=
    (foldMessages_roundChanges l1 hnd).trans
      ((hperm.filter _).trans (foldMessages_roundChanges l2 hnd2).symm)
  have hprops : (foldMessages l1).proposals.Perm (foldMessages l2).proposals :=
    (foldMessages_proposals l1 hnd).trans
      (((hperm.filter _).map _).trans (foldMessages_proposals l2 hnd2).symm)
  have hlp : (prepareVotes (foldMessages l1) v).length =
      (prepareVotes (foldMessages l2) v).length :=
    (hprep.filter _).length_eq
  have hlc : (commitVotes (foldMessages l1) v).length =
      (commitVotes (foldMessages l2) v).length :=
    (hcom.filter _).length_eq
  have hlr : (roundChangeVotes (foldMessages l1) v).length =
      (roundChangeVotes (foldMessages l2) v).length :=
    (hrc.filter _).length_eq
  have hpf : proposalFor (foldMessages l1) v = proposalFor (foldMessages l2) v := by
    unfold proposalFor
    rw [find?_key_eq_of_perm _ _ hprops (foldMessages_inv l1).1 v]
  refine ⟨?_, ?_, ?_, ?_⟩
  · simp only [HasQuorumPrepares, hlp]
  · simp only [HasQuorumCommits, hlc]
  · simp only [HasQuorumRoundChange, hlr]
  · simp only [LockedProposal, HasQuorumPrepares, hlp, hpf]

/-- Witness for C7: a Prepare and a Commit replayed in both orders. -/
theorem roundState_replay_deterministic_witness :
    HasQuorumPrepares
        (foldMessages [⟨.prepare, ⟨1, 0⟩, 1, 9⟩, ⟨.commit, ⟨1, 0⟩, 2, 9⟩]) ⟨1, 0⟩ 1 =
      HasQuorumPrepares
        (foldMessages [⟨.commit, ⟨1, 0⟩, 2, 9⟩, ⟨.prepare, ⟨1, 0⟩, 1, 9⟩]) ⟨1, 0⟩ 1 ∧
    HasQuorumCommits
        (foldMessages [⟨.prepare, ⟨1, 0⟩, 1, 9⟩, ⟨.commit, ⟨1, 0⟩, 2, 9⟩]) ⟨1, 0⟩ 1 =
      HasQuorumCommits
        (foldMessages [⟨.commit, ⟨1, 0⟩, 2, 9⟩, ⟨.prepare, ⟨1, 0⟩, 1, 9⟩]) ⟨1, 0⟩ 1 ∧
    HasQuorumRoundChange
        (foldMessages [⟨.prepare, ⟨1, 0⟩, 1, 9⟩, ⟨.commit, ⟨1, 0⟩, 2, 9⟩]) ⟨1, 0⟩ 1 =
      HasQuorumRoundChange
        (foldMessages [⟨.commit, ⟨1, 0⟩, 2, 9⟩, ⟨.prepare, ⟨1, 0⟩, 1, 9⟩]) ⟨1, 0⟩ 1 ∧
    LockedProposal
        (foldMessages [⟨.prepare, ⟨1, 0⟩, 1, 9⟩, ⟨.commit, ⟨1, 0⟩, 2, 9⟩]) ⟨1, 0⟩ 1 =
      LockedProposal
        (foldMessages [⟨.commit, ⟨1, 0⟩, 2, 9⟩, ⟨.prepare, ⟨1, 0⟩, 1, 9⟩]) ⟨1, 0⟩ 1 :=
  roundState_replay_deterministic
    [⟨.prepare, ⟨1, 0⟩, 1, 9⟩, ⟨.commit, ⟨1, 0⟩, 2, 9⟩]
    [⟨.commit, ⟨1, 0⟩, 2, 9⟩, ⟨.prepare, ⟨1, 0⟩, 1, 9⟩]
    (by decide) (by decide) ⟨1, 0⟩ 1

end PolygonSdk
